import Mathlib

/-!
Verification of the SOLID examples repository (Go) against its specification.

Each Go file is embedded shallowly:
  * `ocp.go`  : products, specifications and the two filters (OCP example);
  * `srp.go`  : the logger and the file-writing save operations (SRP example),
    with the file system interaction modelled as an event trace;
  * `isp.go`  : rectangles and squares (LSP example), machines (ISP example)
    and workers/managers (DIP example).
Go strings inspected character by character (the SRP log entries) are
modelled as `List Char`; other strings stay `String`.  Go `int` is modelled
as `Int`, with the two's-complement wrap `wrap64` applied where the machine
width of a multiplication is load-bearing (the square-as-rectangle area
claim); elsewhere no claim depends on overflow.
-/

namespace Solid

/-! ## OCP example (`ocp.go`): products, specifications and filters -/

inductive Size where
  | Small
  | Medium
  | Large
  | Giant
deriving DecidableEq, Repr

inductive Color where
  | Red
  | Green
  | Blue
  | Yellow
  | Black
  | White
deriving DecidableEq, Repr

structure Product where
  name : String
  size : Size
  color : Color
deriving DecidableEq, Repr

def Product.GetName (p : Product) : String := p.name

def NewProduct (name : String) (size : Size) (color : Color) : Product :=
  { name := name, size := size, color := color }

/-- The `WrongFilter` struct has no fields. -/
structure WrongFilter where

/-- `WrongFilter.BySize`: loop over `products` appending each product whose
`size` equals the argument. -/
def WrongFilter.BySize (_ : WrongFilter) (products : List Product)
    (size : Size) : List Product :=
  List.foldl
    (fun result product =>
      if product.size == size then result ++ [product] else result)
    [] products

/-- `WrongFilter.ByColor`: loop over `products` appending each product whose
`color` equals the argument. -/
def WrongFilter.ByColor (_ : WrongFilter) (products : List Product)
    (color : Color) : List Product :=
  List.foldl
    (fun result product =>
      if product.color == color then result ++ [product] else result)
    [] products

/-- `WrongFilter.BySizeAndColor`: loop appending each product matching both
the size and the color. -/
def WrongFilter.BySizeAndColor (_ : WrongFilter) (products : List Product)
    (size : Size) (color : Color) : List Product :=
  List.foldl
    (fun result product =>
      if product.size == size && product.color == color
      then result ++ [product] else result)
    [] products

/-- The Go interface `ISpecification`: a value of the interface is determined
by its single method `IsSatisfied`. -/
structure ISpecification where
  IsSatisfied : Product → Bool

structure ColorSpecification where
  color : Color

def ColorSpecification.IsSatisfied (cs : ColorSpecification)
    (product : Product) : Bool :=
  cs.color == product.color

def NewColorSpecification (color : Color) : ISpecification :=
  ⟨(ColorSpecification.mk color).IsSatisfied⟩

structure SizeSpecification where
  size : Size

def SizeSpecification.IsSatisfied (cs : SizeSpecification)
    (product : Product) : Bool :=
  cs.size == product.size

def NewSizeSpecification (size : Size) : ISpecification :=
  ⟨(SizeSpecification.mk size).IsSatisfied⟩

structure AndSpecification where
  first : ISpecification
  second : ISpecification

def AndSpecification.IsSatisfied (as' : AndSpecification)
    (product : Product) : Bool :=
  as'.first.IsSatisfied product && as'.second.IsSatisfied product

def NewAndSpecification (first second : ISpecification) : ISpecification :=
  ⟨(AndSpecification.mk first second).IsSatisfied⟩

/-- The `RightFilter` struct has no fields. -/
structure RightFilter where

/-- `RightFilter.Filter`: loop over `products` appending each product
satisfying the specification. -/
def RightFilter.Filter (_ : RightFilter) (products : List Product)
    (specification : ISpecification) : List Product :=
  List.foldl
    (fun result product =>
      if specification.IsSatisfied product then result ++ [product]
      else result)
    [] products

/-- The append-accumulating loop shared by all four filter methods computes
`List.filter`. -/
theorem foldl_append_filter (p : Product → Bool) :
    ∀ (l : List Product) (acc : List Product),
      List.foldl (fun result x => if p x then result ++ [x] else result)
        acc l = acc ++ l.filter p := by
  intro l
  induction l with
  | nil => intro acc; simp
  | cons x xs ih =>
      intro acc
      by_cases h : p x
      · simp [List.foldl, h, ih, List.filter_cons]
      · simp [List.foldl, h, ih, List.filter_cons]

theorem sizeBeqSymm : ∀ a b : Size, (a == b) = (b == a) := by
  intro a b
  cases a <;> cases b <;> rfl

theorem colorBeqSymm : ∀ a b : Color, (a == b) = (b == a) := by
  intro a b
  cases a <;> cases b <;> rfl

/-- C1: `RightFilter.Filter products specification` returns exactly the
sub-sequence of `products` on which `specification.IsSatisfied` is true, in
the original relative order — that is, it equals `List.filter`. -/
theorem RightFilter.Filter_eq_filter (rf : RightFilter)
    (products : List Product) (specification : ISpecification) :
    rf.Filter products specification
      = products.filter specification.IsSatisfied := by
  unfold RightFilter.Filter
  simpa using foldl_append_filter specification.IsSatisfied products []

/-- C3: filtering by `NewAndSpecification p q` equals filtering by `p` and
then by `q`, and the AND combinator is satisfied iff both components are. -/
theorem RightFilter.Filter_and_spec (rf : RightFilter)
    (products : List Product) (p q : ISpecification) :
    rf.Filter products (NewAndSpecification p q)
        = rf.Filter (rf.Filter products p) q
      ∧ ∀ product : Product,
          (NewAndSpecification p q).IsSatisfied product
            = (p.IsSatisfied product && q.IsSatisfied product) := by
  constructor
  · unfold RightFilter.Filter
    rw [foldl_append_filter, foldl_append_filter, foldl_append_filter]
    simp only [List.nil_append, List.filter_filter]
    apply List.filter_congr
    intro product _
    simp [NewAndSpecification, AndSpecification.IsSatisfied, Bool.and_comm]
  · intro product
    rfl

/-- C10: the anti-pattern filter methods agree extensionally with the
specification-based filter: by size, by color, and by size-and-color. -/
theorem WrongFilter_eq_RightFilter (wf : WrongFilter) (rf : RightFilter)
    (products : List Product) (s : Size) (c : Color) :
    wf.BySize products s = rf.Filter products (NewSizeSpecification s)
      ∧ wf.ByColor products c = rf.Filter products (NewColorSpecification c)
      ∧ wf.BySizeAndColor products s c
          = rf.Filter products
              (NewAndSpecification (NewSizeSpecification s)
                (NewColorSpecification c)) := by
  refine ⟨?_, ?_, ?_⟩
  · unfold WrongFilter.BySize RightFilter.Filter
    rw [foldl_append_filter, foldl_append_filter]
    simp only [List.nil_append]
    apply List.filter_congr
    intro product _
    simp [NewSizeSpecification, SizeSpecification.IsSatisfied,
      sizeBeqSymm]
  · unfold WrongFilter.ByColor RightFilter.Filter
    rw [foldl_append_filter, foldl_append_filter]
    simp only [List.nil_append]
    apply List.filter_congr
    intro product _
    simp [NewColorSpecification, ColorSpecification.IsSatisfied,
      colorBeqSymm]
  · unfold WrongFilter.BySizeAndColor RightFilter.Filter
    rw [foldl_append_filter, foldl_append_filter]
    simp only [List.nil_append]
    apply List.filter_congr
    intro product _
    simp [NewAndSpecification, AndSpecification.IsSatisfied,
      NewSizeSpecification, SizeSpecification.IsSatisfied,
      NewColorSpecification, ColorSpecification.IsSatisfied,
      sizeBeqSymm, colorBeqSymm]

/-! ## SRP example (`srp.go`): logger and persistence -/

/-- A Go string inspected character by character. -/
abbrev GoStr := List Char

structure Logger where
  logEntries : List GoStr

/-- `Logger.Log`: append the entry to the ordered entry sequence. -/
def Logger.Log (l : Logger) (entry : GoStr) : Logger :=
  { l with logEntries := l.logEntries ++ [entry] }

/-- One observable file-system operation performed by a save call. -/
inductive FileEvent where
  | create (filename : GoStr)
  | createFail (filename : GoStr)
  | writeString (s : GoStr)
  | close (filename : GoStr)
deriving DecidableEq, Repr

/-- Modelled from the spec: `os.Create` is standard-library code outside the
repository; the spec says the save operation "fails with an I/O error if the
destination cannot be opened for writing".  The environment records, per
filename, whether creation succeeds and the error value returned when it
does not. -/
structure OSEnv where
  createOk : GoStr → Bool
  createErr : GoStr → GoStr

/-- The outcome of a save call: the returned error, the trace of file
operations performed, and the logger state when the call returns. -/
structure SaveResult where
  err : Option GoStr
  events : List FileEvent
  logger : Logger

/-- The write loop of both save variants: one `f.WriteString(entry + "\n")`
per entry, in order. -/
def writeEntryEvents : List GoStr → List FileEvent
  | [] => []
  | entry :: rest =>
      FileEvent.writeString (entry ++ ['\n']) :: writeEntryEvents rest

/-- The `LogFileWriter` struct has no fields. -/
structure LogFileWriter where

/-- `LogFileWriter.Save`: create the destination (returning the error when
creation fails), write each logger entry followed by a newline, and close
the file on return (the deferred `f.Close()`). -/
def LogFileWriter.Save (_ : LogFileWriter) (env : OSEnv) (logger : Logger)
    (filename : GoStr) : SaveResult :=
  if env.createOk filename then
    { err := none
      events := FileEvent.create filename ::
        (writeEntryEvents logger.logEntries ++ [FileEvent.close filename])
      logger := logger }
  else
    { err := some (env.createErr filename)
      events := [FileEvent.createFail filename]
      logger := logger }

/-- `Logger.Save`, the SRP-violating variant: identical body, as a method of
the logger itself. -/
def Logger.Save (l : Logger) (env : OSEnv) (filename : GoStr) : SaveResult :=
  if env.createOk filename then
    { err := none
      events := FileEvent.create filename ::
        (writeEntryEvents l.logEntries ++ [FileEvent.close filename])
      logger := l }
  else
    { err := some (env.createErr filename)
      events := [FileEvent.createFail filename]
      logger := l }

/-- Replay a trace on the destination's content: `create` truncates,
`writeString` appends, the other events leave the content unchanged. -/
def runEvents : List FileEvent → GoStr → GoStr
  | [], content => content
  | FileEvent.create _ :: rest, _ => runEvents rest []
  | FileEvent.createFail _ :: rest, content => runEvents rest content
  | FileEvent.writeString s :: rest, content => runEvents rest (content ++ s)
  | FileEvent.close _ :: rest, content => runEvents rest content

/-- Split a character sequence at each newline, the semantics of reading a
text file back line by line (a trailing newline yields a final empty
field). -/
def splitLines : GoStr → List GoStr
  | [] => [[]]
  | c :: rest =>
      if c = '\n' then [] :: splitLines rest
      else
        match splitLines rest with
        | [] => [[c]]
        | l :: ls => (c :: l) :: ls

/-- Reading a newline-terminated file back as its list of lines. -/
def readBack (content : GoStr) : List GoStr :=
  (splitLines content).dropLast

/-- The text a successful save writes: each entry followed by a newline. -/
def savedText : List GoStr → GoStr
  | [] => []
  | entry :: rest => entry ++ '\n' :: savedText rest

def allowAllEnv : OSEnv := ⟨fun _ => true, fun _ => []⟩

def denyAllEnv : OSEnv := ⟨fun _ => false, fun _ => ['E']⟩

theorem foldl_Log (entries : List GoStr) :
    ∀ l : Logger,
      (List.foldl Logger.Log l entries).logEntries
        = l.logEntries ++ entries := by
  induction entries with
  | nil => intro l; simp
  | cons e rest ih =>
      intro l
      simp [List.foldl, ih, Logger.Log]

theorem runEvents_writeEntryEvents (filename : GoStr) (entries : List GoStr) :
    ∀ acc : GoStr,
      runEvents (writeEntryEvents entries ++ [FileEvent.close filename]) acc
        = acc ++ savedText entries := by
  induction entries with
  | nil => intro acc; simp [writeEntryEvents, runEvents, savedText]
  | cons e rest ih =>
      intro acc
      simp [writeEntryEvents, runEvents, savedText, ih]

theorem splitLines_no_newline_append (s : GoStr) :
    ∀ e : GoStr, '\n' ∉ e →
      ∀ l ls, splitLines s = l :: ls → splitLines (e ++ s) = (e ++ l) :: ls := by
  intro e
  induction e with
  | nil => intro _ l ls h; simpa using h
  | cons c e' ih =>
      intro hnot l ls h
      have hc : ¬ c = '\n' := by
        intro hcon
        exact hnot (by simp [hcon])
      have h' : splitLines (e' ++ s) = (e' ++ l) :: ls :=
        ih (fun hmem => hnot (List.mem_cons_of_mem c hmem)) l ls h
      simp [splitLines, hc, h']

theorem splitLines_savedText (entries : List GoStr)
    (h : ∀ e ∈ entries, '\n' ∉ e) :
    splitLines (savedText entries) = entries ++ [[]] := by
  induction entries with
  | nil => simp [savedText, splitLines]
  | cons e rest ih =>
      have hrest : splitLines (savedText rest) = rest ++ [[]] :=
        ih (fun x hx => h x (List.mem_cons_of_mem e hx))
      have hsplit : splitLines ('\n' :: savedText rest)
          = [] :: (rest ++ [[]]) := by
        simp [splitLines, hrest]
      have happ :=
        splitLines_no_newline_append ('\n' :: savedText rest) e
          (h e (List.mem_cons_self e rest)) [] (rest ++ [[]]) hsplit
      simpa [savedText] using happ

def isCreateEvent : FileEvent → Bool
  | FileEvent.create _ => true
  | _ => false

def isCloseEvent : FileEvent → Bool
  | FileEvent.close _ => true
  | _ => false

theorem writeEntryEvents_countP_close (entries : List GoStr) :
    (writeEntryEvents entries).countP isCloseEvent = 0 := by
  induction entries with
  | nil => rfl
  | cons e rest ih =>
      simp [writeEntryEvents, List.countP_cons, isCloseEvent, ih]

theorem writeEntryEvents_countP_create (entries : List GoStr) :
    (writeEntryEvents entries).countP isCreateEvent = 0 := by
  induction entries with
  | nil => rfl
  | cons e rest ih =>
      simp [writeEntryEvents, List.countP_cons, isCreateEvent, ih]

/-- C2 (amended: entries must not contain a newline character, since the
save loop does no escaping): after appending the entries via `Log` and
saving with `LogFileWriter.Save` to a creatable destination, the persisted
content splits into exactly those entries, one per line, newline-terminated,
in append order, and reading it back line by line reproduces the appended
sequence. -/
theorem LogFileWriter_Save_roundtrip (lfw : LogFileWriter) (env : OSEnv)
    (entries : List GoStr) (filename : GoStr)
    (hnl : ∀ e ∈ entries, '\n' ∉ e)
    (hok : env.createOk filename = true) :
    splitLines
        (runEvents
          (lfw.Save env (List.foldl Logger.Log ⟨[]⟩ entries) filename).events
          [])
      = entries ++ [[]]
    ∧ readBack
        (runEvents
          (lfw.Save env (List.foldl Logger.Log ⟨[]⟩ entries) filename).events
          [])
      = entries := by
  have hlog : (List.foldl Logger.Log ⟨[]⟩ entries).logEntries = entries := by
    simpa using foldl_Log entries ⟨[]⟩
  have hcontent :
      runEvents
          (lfw.Save env (List.foldl Logger.Log ⟨[]⟩ entries) filename).events
          []
        = savedText entries := by
    simp [LogFileWriter.Save, hok, runEvents, runEvents_writeEntryEvents,
      hlog]
  refine ⟨?_, ?_⟩
  · rw [hcontent]
    exact splitLines_savedText entries hnl
  · rw [readBack, hcontent, splitLines_savedText entries hnl]
    exact List.dropLast_concat

/-- C2 counterexample: a single appended entry containing a newline is
persisted as two lines, so reading the destination back does not reproduce
the appended sequence. -/
theorem LogFileWriter_Save_roundtrip_counterexample :
    readBack
        (runEvents
          (LogFileWriter.mk.Save allowAllEnv
            (Logger.Log ⟨[]⟩ ['a', '\n', 'b']) ['f']).events [])
      ≠ (Logger.Log ⟨[]⟩ ['a', '\n', 'b']).logEntries := by
  decide

theorem LogFileWriter_Save_roundtrip_witness :
    readBack
        (runEvents
          (LogFileWriter.mk.Save allowAllEnv
            (List.foldl Logger.Log ⟨[]⟩ [['a'], ['b']]) ['f']).events [])
      = [['a'], ['b']] :=
  (LogFileWriter_Save_roundtrip ⟨⟩ allowAllEnv [['a'], ['b']] ['f']
    (by decide) rfl).2

/-- C7: `LogFileWriter.Save` returns a non-nil error iff the destination
cannot be created; on that path the single creation error is propagated
unchanged with no retry, the logger is unchanged, and nothing is written to
any destination content. -/
theorem LogFileWriter_Save_error_behavior (lfw : LogFileWriter) (env : OSEnv)
    (logger : Logger) (filename : GoStr) :
    ((lfw.Save env logger filename).err ≠ none
        ↔ env.createOk filename = false)
    ∧ (env.createOk filename = false →
        (lfw.Save env logger filename).err = some (env.createErr filename)
        ∧ (lfw.Save env logger filename).events
            = [FileEvent.createFail filename]
        ∧ (lfw.Save env logger filename).logger = logger
        ∧ ∀ content,
            runEvents (lfw.Save env logger filename).events content
              = content) := by
  by_cases hok : env.createOk filename
  · constructor
    · simp [LogFileWriter.Save, hok]
    · intro habs
      rw [hok] at habs
      cases habs
  · have hok' : env.createOk filename = false := by simpa using hok
    constructor
    · simp [LogFileWriter.Save, hok']
    · intro _
      refine ⟨?_, ?_, ?_, ?_⟩ <;> simp [LogFileWriter.Save, hok', runEvents]

theorem LogFileWriter_Save_error_behavior_witness :
    (LogFileWriter.mk.Save denyAllEnv ⟨[['x']]⟩ ['f']).err = some ['E']
    ∧ runEvents (LogFileWriter.mk.Save denyAllEnv ⟨[['x']]⟩ ['f']).events
        ['o'] = ['o'] := by
  have h := LogFileWriter_Save_error_behavior ⟨⟩ denyAllEnv ⟨[['x']]⟩ ['f']
  have h2 := h.2 rfl
  exact ⟨h2.1, h2.2.2.2 ['o']⟩

/-- C8: in both save variants, every destination created is also closed
(close events balance create events on every exit path), and on the success
path the close is the final file operation of the call. -/
theorem Save_releases_destination (lfw : LogFileWriter) (env : OSEnv)
    (logger : Logger) (filename : GoStr) :
    ((lfw.Save env logger filename).events.countP isCloseEvent
        = (lfw.Save env logger filename).events.countP isCreateEvent)
    ∧ ((logger.Save env filename).events.countP isCloseEvent
        = (logger.Save env filename).events.countP isCreateEvent)
    ∧ (env.createOk filename = true →
        (lfw.Save env logger filename).events.getLast?
          = some (FileEvent.close filename)) := by
  by_cases hok : env.createOk filename
  · refine ⟨?_, ?_, ?_⟩
    · simp [LogFileWriter.Save, hok, List.countP_cons, List.countP_append,
        writeEntryEvents_countP_close, writeEntryEvents_countP_create,
        isCloseEvent, isCreateEvent]
    · simp [Logger.Save, hok, List.countP_cons, List.countP_append,
        writeEntryEvents_countP_close, writeEntryEvents_countP_create,
        isCloseEvent, isCreateEvent]
    · intro _
      have hev : (lfw.Save env logger filename).events
          = FileEvent.create filename ::
            (writeEntryEvents logger.logEntries
              ++ [FileEvent.close filename]) := by
        simp [LogFileWriter.Save, hok]
      rw [hev, ← List.cons_append]
      exact List.getLast?_concat _
  · have hok' : env.createOk filename = false := by simpa using hok
    refine ⟨?_, ?_, ?_⟩
    · simp [LogFileWriter.Save, hok', List.countP_cons, isCloseEvent,
        isCreateEvent]
    · simp [Logger.Save, hok', List.countP_cons, isCloseEvent, isCreateEvent]
    · intro habs
      rw [hok'] at habs
      cases habs

theorem Save_releases_destination_witness :
    (LogFileWriter.mk.Save allowAllEnv ⟨[['x']]⟩ ['f']).events.getLast?
      = some (FileEvent.close ['f']) :=
  (Save_releases_destination ⟨⟩ allowAllEnv ⟨[['x']]⟩ ['f']).2.2 rfl

/-! ## LSP example (`isp.go`, second unit): rectangle and square -/

structure Rectangle where
  width : Int
  height : Int
deriving DecidableEq, Repr

def Rectangle.GetWidth (r : Rectangle) : Int := r.width

def Rectangle.GetHeight (r : Rectangle) : Int := r.height

def Rectangle.SetWidth (r : Rectangle) (width : Int) : Rectangle :=
  { r with width := width }

def Rectangle.SetHeight (r : Rectangle) (height : Int) : Rectangle :=
  { r with height := height }

def Rectangle.Area (r : Rectangle) : Int := r.width * r.height

/-- `Square` embeds `Rectangle`; its overridden setters write both embedded
fields. -/
structure Square where
  toRectangle : Rectangle
deriving DecidableEq, Repr

def Square.GetWidth (s : Square) : Int := s.toRectangle.GetWidth

def Square.GetHeight (s : Square) : Int := s.toRectangle.GetHeight

def Square.Area (s : Square) : Int := s.toRectangle.Area

/-- `Square.SetWidth`: sets both `width` and `height`. -/
def Square.SetWidth (s : Square) (width : Int) : Square :=
  { s with toRectangle :=
      { s.toRectangle with width := width, height := width } }

/-- `Square.SetHeight`: sets both `width` and `height`. -/
def Square.SetHeight (s : Square) (height : Int) : Square :=
  { s with toRectangle :=
      { s.toRectangle with width := height, height := height } }

def NewRectangle (width height : Int) : Rectangle :=
  { width := width, height := height }

/-- `NewSquare`: zero-valued `Square`, then `SetHeight(size)`. -/
def NewSquare (size : Int) : Square :=
  (Square.mk { width := 0, height := 0 }).SetHeight size

/-- Two's-complement wrap at 64 bits: the semantics of Go's `int`
arithmetic on a 64-bit machine. -/
def wrap64 (n : Int) : Int := (n + 2 ^ 63) % 2 ^ 64 - 2 ^ 63

/-- `Rectangle.Area` under machine-width semantics: Go's `int`
multiplication wraps at 64 bits. -/
def Rectangle.areaInt64 (r : Rectangle) : Int := wrap64 (r.width * r.height)

/-- `Square.Area` (promoted from the embedded rectangle) under machine-width
semantics. -/
def Square.areaInt64 (s : Square) : Int := s.toRectangle.areaInt64

/-- C5: on a plain rectangle, `SetHeight` leaves the width unchanged, and
`Area` is always width times height (also after the update). -/
theorem Rectangle_SetHeight_frame (r : Rectangle) (h : Int) :
    (r.SetHeight h).GetWidth = r.GetWidth
    ∧ r.Area = r.GetWidth * r.GetHeight
    ∧ (r.SetHeight h).Area = r.GetWidth * h := by
  refine ⟨rfl, rfl, rfl⟩

/-- C6 counterexample: with `NewSquare 10` and `SetHeight 0`, the new height
`0` differs from the read width `10`, yet the machine-width area equals
width times new height (both products are `0`), so the claimed inequation
fails at `h = 0`. -/
theorem Square_SetHeight_area_counterexample :
    (0 : Int) ≠ (NewSquare 10).GetWidth
    ∧ ((NewSquare 10).SetHeight 0).areaInt64
        = wrap64 ((NewSquare 10).GetWidth * 0) := by
  refine ⟨by decide, by decide⟩

/-- C6 (amended: additionally requires `h ≠ 0` and that neither product
`h * h` nor `w * h` wraps at the machine width, since with 64-bit wrapping
e.g. `w = 3 * 2 ^ 32`, `h = 2 ^ 32` makes both products congruent to `0`):
reading the width of `NewSquare s` and then calling `SetHeight h` with `h`
different from that width, nonzero, and overflow-free yields an area
different from width times `h` — the rectangle expectation fails for the
square-as-rectangle. -/
theorem Square_SetHeight_area_violation (s h : Int)
    (hne : h ≠ (NewSquare s).GetWidth) (hz : h ≠ 0)
    (hhh : wrap64 (h * h) = h * h)
    (hwh : wrap64 ((NewSquare s).GetWidth * h)
      = (NewSquare s).GetWidth * h) :
    ((NewSquare s).SetHeight h).areaInt64
      ≠ wrap64 ((NewSquare s).GetWidth * h) := by
  have ha : ((NewSquare s).SetHeight h).areaInt64 = wrap64 (h * h) := rfl
  rw [ha, hhh, hwh]
  have hw : (NewSquare s).GetWidth = s := rfl
  rw [hw] at hne ⊢
  intro hcon
  exact hne (mul_right_cancel₀ hz hcon)

theorem Square_SetHeight_area_violation_witness :
    (20 : Int) ≠ (NewSquare 10).GetWidth
    ∧ (20 : Int) ≠ 0
    ∧ wrap64 (20 * 20 : Int) = 20 * 20
    ∧ wrap64 ((NewSquare 10).GetWidth * 20) = (NewSquare 10).GetWidth * 20
    ∧ ((NewSquare 10).SetHeight 20).areaInt64
        ≠ wrap64 ((NewSquare 10).GetWidth * 20) :=
  ⟨by decide, by decide, by decide, by decide,
    Square_SetHeight_area_violation 10 20 (by decide) (by decide)
      (by decide) (by decide)⟩

/-- A mutation reaching a `Square` through the rectangle interface. -/
inductive SquareOp where
  | setWidth (width : Int)
  | setHeight (height : Int)
deriving DecidableEq, Repr

def applySquareOp (s : Square) : SquareOp → Square
  | SquareOp.setWidth w => s.SetWidth w
  | SquareOp.setHeight h => s.SetHeight h

/-- C9: `NewSquare` establishes `width = height`, and both overridden
setters preserve it, so after any sequence of setter calls the square still
has equal width and height. -/
theorem Square_width_eq_height (size : Int) (ops : List SquareOp) :
    (List.foldl applySquareOp (NewSquare size) ops).GetWidth
      = (List.foldl applySquareOp (NewSquare size) ops).GetHeight := by
  have key : ∀ (l : List SquareOp) (sq : Square),
      sq.GetWidth = sq.GetHeight →
      (List.foldl applySquareOp sq l).GetWidth
        = (List.foldl applySquareOp sq l).GetHeight := by
    intro l
    induction l with
    | nil => intro sq h; simpa using h
    | cons op rest ih =>
        intro sq h
        cases op with
        | setWidth w => exact ih _ rfl
        | setHeight hh => exact ih _ rfl
  exact key ops (NewSquare size) rfl

/-! ## DIP example (`isp.go`, third unit): workers and manager -/

/-- The Go interface `IWorker`: a value of the interface is determined by
its single method `Work`, modelled by the console lines one call prints. -/
structure IWorker where
  Work : List String

structure RegularWorker where

def RegularWorker.Work (_ : RegularWorker) : List String :=
  ["Working..."]

structure SpecialWorker where

def SpecialWorker.Work (_ : SpecialWorker) : List String :=
  ["Especially working..."]

def RegularWorker.asIWorker (w : RegularWorker) : IWorker := ⟨w.Work⟩

def SpecialWorker.asIWorker (w : SpecialWorker) : IWorker := ⟨w.Work⟩

structure Manager where
  workers : List IWorker

/-- `Manager.DelegateWork`: loop over the workers invoking `Work` on each;
the trace records every invocation in call order with its output. -/
def Manager.DelegateWork (m : Manager) : List (IWorker × List String) :=
  List.foldl (fun calls w => calls ++ [(w, w.Work)]) [] m.workers

/-- `Manager.AddWorker`: append the worker to the collection. -/
def Manager.AddWorker (m : Manager) (w : IWorker) : Manager :=
  { m with workers := m.workers ++ [w] }

/-- C4: after registering any sequence of workers via `AddWorker`,
`DelegateWork` invokes `Work` on every registered worker exactly once, in
registration order. -/
theorem Manager_DelegateWork_each_once (ws : List IWorker) :
    (List.foldl Manager.AddWorker ⟨[]⟩ ws).DelegateWork
      = ws.map (fun w => (w, w.Work)) := by
  have hreg : ∀ (l : List IWorker) (m : Manager),
      (List.foldl Manager.AddWorker m l).workers = m.workers ++ l := by
    intro l
    induction l with
    | nil => intro m; simp
    | cons w rest ih =>
        intro m
        simp [List.foldl, Manager.AddWorker, ih]
  have htrace : ∀ (l : List IWorker) (acc : List (IWorker × List String)),
      List.foldl (fun calls w => calls ++ [(w, w.Work)]) acc l
        = acc ++ l.map (fun w => (w, w.Work)) := by
    intro l
    induction l with
    | nil => intro acc; simp
    | cons w rest ih =>
        intro acc
        simp [List.foldl, ih]
  unfold Manager.DelegateWork
  rw [hreg ws ⟨[]⟩]
  simpa using htrace ws []

end Solid
